import Mathlib

/-!
# Verification of the hyper-networklistener-proxy PROXY-protocol decoder

Shallow embedding of `src/proxy_protocol.rs` and `src/proxy_stream.rs`.
Byte streams are modelled as `List Nat` (each element a byte value); a
reader consuming bytes from the front of the stream is modelled by
functions that return the unconsumed suffix of the stream together with
their result.  Fallible operations return `DecodeResult`; a Rust panic
(out-of-range slice index) is modelled by the distinguished outcome
`DecodeResult.panicked`.
-/

/-- IP addresses as produced by the decoder.  `v4 a b c d` is the dotted
quad; `v6 g1 ... g8` lists the eight 16-bit groups. -/
inductive IpAddr : Type
  | v4 (a b c d : Nat)
  | v6 (g1 g2 g3 g4 g5 g6 g7 g8 : Nat)
deriving DecidableEq

/-- Model of `std::net::SocketAddr`: an IP address paired with a port. -/
structure SocketAddr : Type where
  ip : IpAddr
  port : Nat
deriving DecidableEq

/-- `Proto` from `proxy_protocol.rs`. -/
inductive Proto : Type
  | Tcp4
  | Tcp6
  | Unix
  | Unknown
deriving DecidableEq

/-- `Command` from `proxy_protocol.rs`. -/
inductive Command : Type
  | Local
  | Proxy
  | Unspec
deriving DecidableEq

/-- `ProxyReadError` from `proxy_protocol.rs`.  The `AddrParseError`,
`ParseIntError`, `io::Error` and `Utf8Error` payloads are opaque external
values and are not modelled; `IoError` stands for `Io(_)` and `Utf8Error`
for `Utf8(_)`. -/
inductive ProxyReadError : Type
  | MissingField
  | MissingLiteral
  | InvalidProtocol
  | MissingCrlf
  | MissingFirstByte
  | BadVersion
  | BadSourceAddress
  | BadSourcePort
  | BadDestAddress
  | BadDestPort
  | IoError
  | Utf8Error
deriving DecidableEq

/-- `ProxyProtocolHeader` from `proxy_protocol.rs`. -/
structure ProxyProtocolHeader : Type where
  version : Nat
  proto : Proto
  command : Command
  source_addr : Option SocketAddr
  dest_addr : Option SocketAddr
deriving DecidableEq

/-- `ProxyProtocolHeader::new`. -/
def ProxyProtocolHeader.new (version : Nat) (proto : Proto)
    (source_addr dest_addr : SocketAddr) : ProxyProtocolHeader :=
  ⟨version, proto, Command.Proxy, some source_addr, some dest_addr⟩

/-- `ProxyProtocolHeader::new_with_command`. -/
def ProxyProtocolHeader.new_with_command (version : Nat) (proto : Proto)
    (command : Command) (source_addr dest_addr : SocketAddr) : ProxyProtocolHeader :=
  ⟨version, proto, command, some source_addr, some dest_addr⟩

/-- `ProxyProtocolHeader::new_unknown`. -/
def ProxyProtocolHeader.new_unknown (version : Nat) : ProxyProtocolHeader :=
  ⟨version, Proto.Unknown, Command.Unspec, none, none⟩

/-- Outcome of running a decoder on a stream: a Rust panic, a typed
decode error, or a value. -/
inductive DecodeResult (α : Type) : Type
  | panicked
  | err (e : ProxyReadError)
  | ok (a : α)
deriving DecidableEq

/-- Monadic sequencing for `DecodeResult`, mirroring Rust's `?` operator. -/
def DecodeResult.bind {α β : Type} : DecodeResult α → (α → DecodeResult β) → DecodeResult β
  | .panicked, _ => .panicked
  | .err e, _ => .err e
  | .ok a, f => f a

theorem DecodeResult.bind_eq_ok {α β : Type} {x : DecodeResult α}
    {f : α → DecodeResult β} {b : β} :
    x.bind f = .ok b ↔ ∃ a, x = .ok a ∧ f a = .ok b := by
  cases x <;> simp [DecodeResult.bind]

/-- Byte list of an ASCII string literal (all literals used by the source
are ASCII, where UTF-8 bytes coincide with code points). -/
def strBytes (s : String) : List Nat := s.data.map (fun c => c.toNat)

/-- Model of Rust's `slice::split(|&f| f == sep)`: split at every occurrence
of `sep`, keeping empty segments; an empty input yields one empty segment. -/
def splitOnSep (sep : Nat) : List Nat → List (List Nat)
  | [] => [[]]
  | b :: rest =>
    match splitOnSep sep rest with
    | g :: gs => if b = sep then [] :: g :: gs else (b :: g) :: gs
    | [] => if b = sep then [[], []] else [[b]]

/-- Is the byte in the range of a UTF-8 continuation byte `lo ..= hi`? -/
def contOk (lo hi b : Nat) : Bool := decide (lo ≤ b) && decide (b ≤ hi)

/-- Continuation-byte pattern of a UTF-8 lead byte: the admissible range
`(lo, hi)` of the first continuation byte and the total number of
continuation bytes, or `none` for an invalid lead byte. -/
def leadInfo (b : Nat) : Option (Nat × Nat × Nat) :=
  if 0xC2 ≤ b ∧ b ≤ 0xDF then some (0x80, 0xBF, 1)
  else if b = 0xE0 then some (0xA0, 0xBF, 2)
  else if (0xE1 ≤ b ∧ b ≤ 0xEC) ∨ b = 0xEE ∨ b = 0xEF then some (0x80, 0xBF, 2)
  else if b = 0xED then some (0x80, 0x9F, 2)
  else if b = 0xF0 then some (0x90, 0xBF, 3)
  else if 0xF1 ≤ b ∧ b ≤ 0xF3 then some (0x80, 0xBF, 3)
  else if b = 0xF4 then some (0x80, 0x8F, 3)
  else none

/-- One-byte-at-a-time UTF-8 validation: the state is the number of
pending continuation bytes together with the admissible range of the next
one. -/
def utf8Loop : Nat → Nat → Nat → List Nat → Bool
  | 0, _, _, [] => true
  | 0, _, _, b :: rest =>
    if b ≤ 0x7F then utf8Loop 0 0 0 rest
    else
      match leadInfo b with
      | some (lo, hi, total) => utf8Loop total lo hi rest
      | none => false
  | _ + 1, _, _, [] => false
  | n + 1, lo, hi, b :: rest =>
    if contOk lo hi b then utf8Loop n 0x80 0xBF rest else false

/-- Model of the validation performed by `std::str::from_utf8`
(well-formed UTF-8: shortest forms only, surrogates excluded). -/
def validUtf8 (l : List Nat) : Bool := utf8Loop 0 0 0 l

/-- ASCII decimal digit test. -/
def isDigit (b : Nat) : Bool := decide (48 ≤ b) && decide (b ≤ 57)

/-- Model of one dotted-quad group of the external `Ipv4Addr::from_str`:
1-3 decimal digits, no leading zero unless the group is exactly "0",
value at most 255. -/
def parseOctet (l : List Nat) : Option Nat :=
  if l ≠ [] ∧ l.length ≤ 3 ∧ l.all isDigit ∧ (l.length = 1 ∨ l.headD 0 ≠ 48) then
    let v := l.foldl (fun a b => 10 * a + (b - 48)) 0
    if v ≤ 255 then some v else none
  else none

/-- Model of the external `Ipv4Addr::from_str`: exactly four dot-separated
octet groups. -/
def parseIpv4 (l : List Nat) : Option IpAddr :=
  match (splitOnSep 46 l).map parseOctet with
  | [some a, some b, some c, some d] => some (.v4 a b c d)
  | _ => none

/-- Hexadecimal digit value, if any. -/
def hexVal (b : Nat) : Option Nat :=
  if 48 ≤ b ∧ b ≤ 57 then some (b - 48)
  else if 97 ≤ b ∧ b ≤ 102 then some (b - 87)
  else if 65 ≤ b ∧ b ≤ 70 then some (b - 55)
  else none

/-- One colon-separated group of an IPv6 address: 1-4 hex digits. -/
def parseHexGroup (l : List Nat) : Option Nat :=
  if l ≠ [] ∧ l.length ≤ 4 ∧ l.all (fun b => (hexVal b).isSome) then
    some (l.foldl (fun a b => 16 * a + (hexVal b).getD 0) 0)
  else none

/-- Model of the external `Ipv6Addr::from_str` restricted to the full
uncompressed form (eight colon-separated hex groups).  The external
parser also accepts `::`-compressed and IPv4-embedded forms; no claim in
this development depends on those inputs, so they are not modelled. -/
def parseIpv6 (l : List Nat) : Option IpAddr :=
  match (splitOnSep 58 l).map parseHexGroup with
  | [some a, some b, some c, some d, some e, some f, some g, some h] =>
    some (.v6 a b c d e f g h)
  | _ => none

/-- Model of the external `IpAddr::from_str` as used by
`parse_proxy_protocol_v1_after_first_byte`: IPv4 syntax is tried first,
then IPv6. -/
def ipAddrParse (l : List Nat) : Option IpAddr :=
  match parseIpv4 l with
  | some a => some a
  | none => parseIpv6 l

/-- Model of the external `u16::from_str`: optional leading `+` sign, then
one or more decimal digits (leading zeros allowed), value at most 65535
(checked arithmetic rejects overflow). -/
def parseU16 (l : List Nat) : Option Nat :=
  let ds := if l.headD 0 = 43 then l.drop 1 else l
  if ds ≠ [] ∧ ds.all isDigit then
    let v := ds.foldl (fun a b => 10 * a + (b - 48)) 0
    if v ≤ 65535 then some v else none
  else none

/-- Model of `Read::read_exact` into a buffer of `n` bytes: the taken
bytes and the unconsumed suffix, or an I/O error when the stream is too
short. -/
def readExact (n : Nat) (s : List Nat) : DecodeResult (List Nat × List Nat) :=
  if n ≤ s.length then .ok (s.take n, s.drop n) else .err .IoError

/-- Loop body of `read_to_crlf`: `fuel` counts the remaining iterations of
`for i in 0..107`, `acc` holds the bytes read so far (so the next byte
lands at index `acc.length`).  On finding CR LF with the LF at index `i > 1`
it returns the buffer up to (excluding) the CR together with the
unconsumed suffix of the stream. -/
def readToCrlfAux : Nat → List Nat → List Nat → DecodeResult (List Nat × List Nat)
  | 0, _, _ => .err .MissingCrlf
  | fuel + 1, acc, s =>
    match s with
    | [] => .err .IoError
    | b :: rest =>
      if 2 ≤ acc.length ∧ acc.getLast? = some 13 ∧ b = 10 then
        .ok (acc.dropLast, rest)
      else
        readToCrlfAux fuel (acc ++ [b]) rest

/-- `read_to_crlf` from `proxy_protocol.rs`: read single bytes scanning
for CR LF, at most 107 bytes. -/
def readToCrlf (s : List Nat) : DecodeResult (List Nat × List Nat) :=
  readToCrlfAux 107 [] s

/-- `fields.next().ok_or(ProxyReadError::MissingField)??`: take the next
field, failing with `MissingField` when exhausted and with the UTF-8 error
when the field is not valid UTF-8. -/
def nextField (fs : List (List Nat)) : DecodeResult (List Nat × List (List Nat)) :=
  match fs with
  | [] => .err .MissingField
  | f :: rest => if validUtf8 f then .ok (f, rest) else .err .Utf8Error

/-- `parse_proxy_protocol_v1_after_first_byte` from `proxy_protocol.rs`:
parse the buffer (already stripped of the leading byte and of the CRLF)
as space-separated fields. -/
def parse_proxy_protocol_v1_after_first_byte (buf : List Nat) :
    DecodeResult ProxyProtocolHeader :=
  match splitOnSep 32 buf with
  | [] => .err .MissingLiteral
  | f0 :: rest =>
    if validUtf8 f0 ∧ f0 = strBytes "ROXY" then
      (nextField rest).bind fun x =>
      (if x.1 = strBytes "TCP4" then (.ok Proto.Tcp4 : DecodeResult Proto)
       else if x.1 = strBytes "TCP6" then .ok Proto.Tcp6
       else if x.1 = strBytes "UNKNOWN" then .ok Proto.Unknown
       else .err .MissingLiteral).bind fun proto =>
      if proto = Proto.Unknown then .ok (ProxyProtocolHeader.new_unknown 1)
      else
        (nextField x.2).bind fun x2 =>
        ((match ipAddrParse x2.1 with
         | some a => .ok a
         | none => .err .BadSourceAddress : DecodeResult IpAddr)).bind fun source_address =>
        (nextField x2.2).bind fun x3 =>
        ((match ipAddrParse x3.1 with
         | some a => .ok a
         | none => .err .BadDestAddress : DecodeResult IpAddr)).bind fun dest_address =>
        (nextField x3.2).bind fun x4 =>
        ((match parseU16 x4.1 with
         | some p => .ok p
         | none => .err .BadSourcePort : DecodeResult Nat)).bind fun source_port =>
        (nextField x4.2).bind fun x5 =>
        ((match parseU16 x5.1 with
         | some p => .ok p
         | none => .err .BadDestPort : DecodeResult Nat)).bind fun dest_port =>
        .ok (ProxyProtocolHeader.new 1 proto
          ⟨source_address, source_port⟩ ⟨dest_address, dest_port⟩)
    else .err .MissingLiteral

/-- `read_proxy_protocol_v1` from `proxy_protocol.rs`. -/
def read_proxy_protocol_v1 (s : List Nat) :
    DecodeResult (ProxyProtocolHeader × List Nat) :=
  (readToCrlf s).bind fun pr =>
  if pr.1.headD 0 ≠ 0x50 then .err .MissingLiteral
  else
    (parse_proxy_protocol_v1_after_first_byte (pr.1.drop 1)).bind fun h =>
    .ok (h, pr.2)

/-- `AddressFamily` from `proxy_protocol.rs`. -/
inductive AddressFamily : Type
  | Unspec
  | Inet
  | Inet6
  | Unix
deriving DecidableEq

/-- `TransportFamily` from `proxy_protocol.rs`. -/
inductive TransportFamily : Type
  | Unspec
  | Stream
  | Dgram
deriving DecidableEq

/-- `NetworkEndian::read_u16` on an in-bounds slice: big-endian value of
the first two bytes. -/
def be16 (l : List Nat) : Nat := 256 * l.getD 0 0 + l.getD 1 0

/-- `NetworkEndian::read_u32` on an in-bounds slice: big-endian value of
the first four bytes. -/
def be32 (l : List Nat) : Nat :=
  16777216 * l.getD 0 0 + 65536 * l.getD 1 0 + 256 * l.getD 2 0 + l.getD 3 0

/-- `Ipv4Addr::from(u32)`: the four big-endian octets of the value. -/
def ipv4OfU32 (n : Nat) : IpAddr :=
  .v4 (n / 16777216 % 256) (n / 65536 % 256) (n / 256 % 256) (n % 256)

/-- `slice_to_ipv6addr` from `proxy_protocol.rs`.  Each group is
`NetworkEndian::read_u16` of a subslice, which reads the subslice's first
two bytes.  The source reads `&slice[8..12]` for BOTH the fifth and the
sixth group (both yield bytes 8-9), so the sixth group repeats the fifth
and bytes 10-11 are never used; the duplicated `drop 8` below mirrors
that line of the source verbatim. -/
def slice_to_ipv6addr (slice : List Nat) : IpAddr :=
  .v6 (be16 (slice.drop 0)) (be16 (slice.drop 2)) (be16 (slice.drop 4))
    (be16 (slice.drop 6)) (be16 (slice.drop 8)) (be16 (slice.drop 8))
    (be16 (slice.drop 12)) (be16 (slice.drop 14))

/-- Rust slice indexing `&l[a..b]`: the subslice when in bounds, a panic
otherwise. -/
def sliceIdx (l : List Nat) (a b : Nat) : DecodeResult (List Nat) :=
  if a ≤ b ∧ b ≤ l.length then .ok ((l.take b).drop a) else .panicked

/-- The fixed 12-byte v2 signature
`\x0D\x0A\x0D\x0A\x00\x0D\x0A\x51\x55\x49\x54\x0A`. -/
def proxyV2Magic : List Nat := [13, 10, 13, 10, 0, 13, 10, 81, 85, 73, 84, 10]

/-- Body of `read_proxy_protocol_v2_after_first_byte` once the full
16-byte leading header `hb` has been assembled; `s` is the stream
position after those 16 bytes.  Mirrors the source line by line: signature
check, version nibble, command nibble, address-family nibble, transport
nibble, address-block length with its 216-byte ceiling, the address block
read, then the per-family address extraction (whose slice indexing can
panic when the declared length is shorter than the layout), the
`Stream`-transport check, and the final header construction. -/
def v2_after_header (hb s : List Nat) : DecodeResult (ProxyProtocolHeader × List Nat) :=
  if hb.take 12 ≠ proxyV2Magic then .err .MissingLiteral
  else
    let protocol_version := hb.getD 12 0 / 16
    if protocol_version ≠ 2 then .err .BadVersion
    else
      ((match hb.getD 12 0 % 16 with
        | 0 => .ok Command.Local
        | 1 => .ok Command.Proxy
        | _ => .err .InvalidProtocol : DecodeResult Command)).bind fun command =>
      ((match hb.getD 13 0 / 16 with
        | 0 => .ok AddressFamily.Unspec
        | 1 => .ok AddressFamily.Inet
        | 2 => .ok AddressFamily.Inet6
        | 3 => .ok AddressFamily.Unix
        | _ => .err .InvalidProtocol : DecodeResult AddressFamily)).bind fun af =>
      ((match hb.getD 13 0 % 16 with
        | 0 => .ok TransportFamily.Unspec
        | 1 => .ok TransportFamily.Stream
        | 2 => .ok TransportFamily.Dgram
        | _ => .err .InvalidProtocol : DecodeResult TransportFamily)).bind fun transport =>
      let addrlen := be16 (hb.drop 14)
      if addrlen > 216 then .err .InvalidProtocol
      else
        (readExact addrlen s).bind fun ar =>
        ((match af with
          | AddressFamily.Inet =>
            (sliceIdx ar.1 0 4).bind fun b1 =>
            (sliceIdx ar.1 4 8).bind fun b2 =>
            (sliceIdx ar.1 8 10).bind fun b3 =>
            (sliceIdx ar.1 10 12).bind fun b4 =>
            .ok (some (Proto.Tcp4,
              SocketAddr.mk (ipv4OfU32 (be32 b1)) (be16 b3),
              SocketAddr.mk (ipv4OfU32 (be32 b2)) (be16 b4)))
          | AddressFamily.Inet6 =>
            (sliceIdx ar.1 0 16).bind fun b1 =>
            (sliceIdx ar.1 16 32).bind fun b2 =>
            (sliceIdx ar.1 32 34).bind fun b3 =>
            (sliceIdx ar.1 34 36).bind fun b4 =>
            .ok (some (Proto.Tcp6,
              SocketAddr.mk (slice_to_ipv6addr b1) (be16 b3),
              SocketAddr.mk (slice_to_ipv6addr b2) (be16 b4)))
          | AddressFamily.Unix => .ok none
          | AddressFamily.Unspec => .ok none
          : DecodeResult (Option (Proto × SocketAddr × SocketAddr)))).bind fun res =>
        match res with
        | none => .ok (ProxyProtocolHeader.new_unknown protocol_version, ar.2)
        | some pr =>
          if transport ≠ TransportFamily.Stream then .err .InvalidProtocol
          else
            .ok (ProxyProtocolHeader.new_with_command protocol_version pr.1
              command pr.2.1 pr.2.2, ar.2)

/-- `read_proxy_protocol_v2_after_first_byte` from `proxy_protocol.rs`:
`already` holds the header bytes already consumed by the caller; when
fewer than 16, the remaining header bytes are read from the stream.
(With more than 16 bytes already read the source's `copy_from_slice`
would panic; the two call sites pass 1 and 16 bytes.) -/
def read_proxy_protocol_v2_after_first_byte (already s : List Nat) :
    DecodeResult (ProxyProtocolHeader × List Nat) :=
  if already.length < 16 then
    (readExact (16 - already.length) s).bind fun tr =>
    v2_after_header (already ++ tr.1) tr.2
  else if already.length = 16 then v2_after_header already s
  else .panicked

/-- `read_proxy_protocol_v2` from `proxy_protocol.rs`. -/
def read_proxy_protocol_v2 (s : List Nat) :
    DecodeResult (ProxyProtocolHeader × List Nat) :=
  (readExact 16 s).bind fun hr =>
  if hr.1.getD 0 0 ≠ 0x0d then .err .MissingLiteral
  else read_proxy_protocol_v2_after_first_byte hr.1 hr.2

/-- `read_proxy_protocol_any` from `proxy_protocol.rs`: read one byte;
`0x0D` routes to the v2 body with that byte already consumed, `0x50`
(`'P'`) routes to the v1 CRLF scan on the remainder, anything else fails
with `MissingFirstByte`. -/
def read_proxy_protocol_any (s : List Nat) :
    DecodeResult (ProxyProtocolHeader × List Nat) :=
  (readExact 1 s).bind fun fr =>
  if fr.1.getD 0 0 = 0x0d then
    read_proxy_protocol_v2_after_first_byte fr.1 fr.2
  else if fr.1.getD 0 0 = 0x50 then
    (readToCrlf fr.2).bind fun pr =>
    (parse_proxy_protocol_v1_after_first_byte pr.1).bind fun h =>
    .ok (h, pr.2)
  else .err .MissingFirstByte

/-- `ProxyProtocolVersion` from `proxy_protocol.rs`. -/
inductive ProxyProtocolVersion : Type
  | V1
  | V2
  | Any
deriving DecidableEq

/-- The decode performed by `ProxyStream::from_stream` for each version
mode (the `match v` in `proxy_stream.rs`). -/
def readHeaderFor (v : ProxyProtocolVersion) (s : List Nat) :
    DecodeResult (ProxyProtocolHeader × List Nat) :=
  match v with
  | .V1 => read_proxy_protocol_v1 s
  | .V2 => read_proxy_protocol_v2 s
  | .Any => read_proxy_protocol_any s

/-- `ProxyStream` from `proxy_stream.rs`.  The wrapped connection is
modelled by its unconsumed byte stream (`innerRest`) and the answer its
native peer-address query would give (`innerPeer`, an `io::Result`
modelled as `Except Unit`). -/
structure ProxyStream : Type where
  innerPeer : Except Unit SocketAddr
  innerRest : List Nat
  peer_addr : Option SocketAddr

/-- `ProxyStream::from_stream`: decode one header according to the
version mode, then cache the header's source address.  A decode failure
is propagated (the source converts it into `hyper::Error`; the conversion
is not modelled, the error is returned as is). -/
def ProxyStream.from_stream (streamBytes : List Nat)
    (nativePeer : Except Unit SocketAddr) (v : ProxyProtocolVersion) :
    DecodeResult ProxyStream :=
  (readHeaderFor v streamBytes).bind fun hr =>
  .ok ⟨nativePeer, hr.2, hr.1.source_addr⟩

/-- `NetworkStream::peer_addr` for `ProxyStream`: the cached address when
present, otherwise the wrapped connection's native answer. -/
def ProxyStream.peerAddr (ps : ProxyStream) : Except Unit SocketAddr :=
  match ps.peer_addr with
  | some a => .ok a
  | none => ps.innerPeer

/-! ## Properties of the CRLF scan -/

/-- Decomposition of a successful CRLF scan: the bytes seen so far plus
the stream split as buffer, CR LF, and unconsumed suffix; the buffer is
nonempty and bounded by the remaining fuel. -/
theorem readToCrlfAux_ok_decomp :
    ∀ (fuel : Nat) (acc s pre rest : List Nat),
    readToCrlfAux fuel acc s = .ok (pre, rest) →
    acc ++ s = pre ++ 13 :: 10 :: rest ∧ 1 ≤ pre.length ∧
      pre.length + 2 ≤ acc.length + fuel := by
  intro fuel
  induction fuel with
  | zero => intro acc s pre rest h; simp [readToCrlfAux] at h
  | succ f ih =>
    intro acc s pre rest h
    match s with
    | [] => simp [readToCrlfAux] at h
    | b :: r =>
      rw [readToCrlfAux] at h
      by_cases hc : 2 ≤ acc.length ∧ acc.getLast? = some 13 ∧ b = 10
      · rw [if_pos hc] at h
        obtain ⟨hlen, hlast, hb⟩ := hc
        cases h
        have hne : acc ≠ [] := by
          intro hnil; rw [hnil] at hlen; simp at hlen
        have hacc : acc.dropLast ++ [13] = acc := by
          have := List.dropLast_append_getLast hne
          rwa [List.getLast_eq_iff_getLast?_eq_some hne |>.mpr hlast] at this
        refine ⟨?_, ?_, ?_⟩
        · rw [hb, ← hacc]; simp
        · have : acc.dropLast.length = acc.length - 1 := by simp
          omega
        · have : acc.dropLast.length = acc.length - 1 := by simp
          omega
      · rw [if_neg hc] at h
        obtain ⟨h1, h2, h3⟩ := ih (acc ++ [b]) r pre rest h
        refine ⟨?_, h2, ?_⟩
        · simpa using h1
        · simp at h3; omega

/-- Specialisation to `readToCrlf`: the input splits as the returned
buffer, CR LF, and the unconsumed suffix, with the buffer nonempty and of
length at most 105. -/
theorem readToCrlf_ok_decomp {s pre rest : List Nat}
    (h : readToCrlf s = .ok (pre, rest)) :
    s = pre ++ 13 :: 10 :: rest ∧ 1 ≤ pre.length ∧ pre.length ≤ 105 := by
  obtain ⟨h1, h2, h3⟩ := readToCrlfAux_ok_decomp 107 [] s pre rest h
  simp at h1 h3
  exact ⟨h1, h2, by omega⟩

/-- Shift lemma: once at least two bytes have been accumulated, dropping
one leading byte from the accumulator (and granting one more loop
iteration) gives the same scan result minus that leading byte. -/
theorem readToCrlfAux_shift :
    ∀ (fuel : Nat) (b : Nat) (acc s pre rest : List Nat),
    2 ≤ acc.length →
    readToCrlfAux fuel (b :: acc) s = .ok (pre, rest) →
    ∃ pre', pre = b :: pre' ∧ readToCrlfAux (fuel + 1) acc s = .ok (pre', rest) := by
  intro fuel
  induction fuel with
  | zero => intro b acc s pre rest _ h; simp [readToCrlfAux] at h
  | succ f ih =>
    intro b acc s pre rest hlen h
    match s with
    | [] => simp [readToCrlfAux] at h
    | c :: r =>
      rw [readToCrlfAux] at h
      have hne : acc ≠ [] := by
        intro hnil; rw [hnil] at hlen; simp at hlen
      have hlast : (b :: acc).getLast? = acc.getLast? := by
        match acc, hne with
        | _ :: _, _ => exact List.getLast?_cons_cons
      by_cases hc : 2 ≤ acc.length ∧ acc.getLast? = some 13 ∧ c = 10
      · have hc' : 2 ≤ (b :: acc).length ∧ (b :: acc).getLast? = some 13 ∧ c = 10 := by
          refine ⟨by simp; omega, ?_, hc.2.2⟩
          rw [hlast]; exact hc.2.1
        rw [if_pos hc'] at h
        cases h
        refine ⟨acc.dropLast, ?_, ?_⟩
        · exact List.dropLast_cons_of_ne_nil hne
        · rw [readToCrlfAux, if_pos hc]
      · have hc' : ¬ (2 ≤ (b :: acc).length ∧ (b :: acc).getLast? = some 13 ∧ c = 10) := by
          rw [hlast]
          intro hx
          exact hc ⟨hlen, hx.2.1, hx.2.2⟩
        rw [if_neg hc'] at h
        have hlen' : 2 ≤ (acc ++ [c]).length := by simp; omega
        obtain ⟨pre', hpre, hrun⟩ := ih b (acc ++ [c]) r pre rest hlen' (by simpa using h)
        refine ⟨pre', hpre, ?_⟩
        rw [readToCrlfAux, if_neg hc]
        exact hrun

/-- Completeness of the CRLF scan: a stream beginning with a CR-free
block followed by CR LF is consumed exactly through that CR LF, provided
it fits in the iteration budget. -/
theorem readToCrlfAux_complete :
    ∀ (body : List Nat) (fuel : Nat) (acc rest : List Nat),
    (∀ b ∈ body, b ≠ 13) →
    acc.getLast? ≠ some 13 →
    1 ≤ acc.length + body.length →
    body.length + 2 ≤ fuel →
    readToCrlfAux fuel acc (body ++ 13 :: 10 :: rest) = .ok (acc ++ body, rest) := by
  intro body
  induction body with
  | nil =>
    intro fuel acc rest _ hlast hlen hfuel
    obtain ⟨f, rfl⟩ : ∃ f, fuel = f + 2 := ⟨fuel - 2, by omega⟩
    rw [List.nil_append]
    rw [readToCrlfAux, if_neg (by intro hx; exact hlast hx.2.1)]
    rw [readToCrlfAux, if_pos ?_]
    · simp
    · refine ⟨by simp at hlen ⊢; omega, by simp, rfl⟩
  | cons b body ih =>
    intro fuel acc rest hbody hlast hlen hfuel
    obtain ⟨f, rfl⟩ : ∃ f, fuel = f + 1 := ⟨fuel - 1, by omega⟩
    rw [List.cons_append, readToCrlfAux, if_neg ?_]
    · have := ih f (acc ++ [b]) rest (fun x hx => hbody x (by simp [hx]))
        (by simp; exact hbody b (by simp)) (by simp; omega) (by simp at hfuel ⊢; omega)
      simpa using this
    · intro hx
      exact hlast hx.2.1

/-! ## Properties of field splitting and the field parsers -/

theorem splitOnSep_ne_nil (sep : Nat) : ∀ l, splitOnSep sep l ≠ [] := by
  intro l
  match l with
  | [] => simp [splitOnSep]
  | b :: rest =>
    rw [splitOnSep]
    cases hs : splitOnSep sep rest with
    | nil => dsimp only; split <;> simp
    | cons g gs => dsimp only; split <;> simp

/-- A separator-free list splits into itself as the single segment. -/
theorem splitOnSep_no_sep {sep : Nat} :
    ∀ {l : List Nat}, (∀ c ∈ l, c ≠ sep) → splitOnSep sep l = [l] := by
  intro l
  induction l with
  | nil => intro _; rfl
  | cons b rest ih =>
    intro h
    rw [splitOnSep, ih (fun c hc => h c (by simp [hc]))]
    dsimp only
    rw [if_neg (h b (by simp))]

/-- Splitting a list that starts with a separator-free block followed by
a separator peels off that block as the first segment. -/
theorem splitOnSep_append {sep : Nat} :
    ∀ {x : List Nat} (y : List Nat), (∀ c ∈ x, c ≠ sep) →
    splitOnSep sep (x ++ sep :: y) = x :: splitOnSep sep y := by
  intro x
  induction x with
  | nil =>
    intro y _
    rw [List.nil_append, splitOnSep]
    cases hs : splitOnSep sep y with
    | nil => exact absurd hs (splitOnSep_ne_nil sep y)
    | cons g gs => dsimp only; rw [if_pos rfl]
  | cons b rest ih =>
    intro y h
    rw [List.cons_append, splitOnSep, ih y (fun c hc => h c (by simp [hc]))]
    dsimp only
    rw [if_neg (h b (by simp))]

/-- Every element of the input is the separator or lies in one of the
segments. -/
theorem splitOnSep_mem {sep b : Nat} :
    ∀ {l : List Nat}, b ∈ l → b = sep ∨ ∃ g ∈ splitOnSep sep l, b ∈ g := by
  intro l
  induction l with
  | nil => intro h; simp at h
  | cons c rest ih =>
    intro h
    rw [List.mem_cons] at h
    rcases h with rfl | h
    · by_cases hc : b = sep
      · exact Or.inl hc
      · right
        rw [splitOnSep]
        cases hs : splitOnSep sep rest with
        | nil => exact absurd hs (splitOnSep_ne_nil sep rest)
        | cons g gs =>
          dsimp only
          rw [if_neg hc]
          exact ⟨b :: g, by simp, by simp⟩
    · rcases ih h with hb | ⟨g, hg, hbg⟩
      · exact Or.inl hb
      · right
        rw [splitOnSep]
        cases hs : splitOnSep sep rest with
        | nil => exact absurd hs (splitOnSep_ne_nil sep rest)
        | cons g0 gs =>
          rw [hs] at hg
          dsimp only
          by_cases hcs : c = sep
          · rw [if_pos hcs]
            rcases (List.mem_cons).1 hg with rfl | hg'
            · exact ⟨g, List.mem_cons_of_mem _ (List.mem_cons_self g gs), hbg⟩
            · exact ⟨g, List.mem_cons_of_mem _ (List.mem_cons_of_mem _ hg'), hbg⟩
          · rw [if_neg hcs]
            rcases (List.mem_cons).1 hg with rfl | hg'
            · exact ⟨c :: g, List.mem_cons_self _ gs, List.mem_cons_of_mem c hbg⟩
            · exact ⟨g, List.mem_cons_of_mem _ hg', hbg⟩

/-- A list of ASCII bytes is valid UTF-8. -/
theorem validUtf8_ascii : ∀ {l : List Nat}, (∀ b ∈ l, b ≤ 127) → validUtf8 l = true := by
  intro l
  induction l with
  | nil => intro _; rfl
  | cons b rest ih =>
    intro h
    rw [validUtf8, utf8Loop, if_pos (h b (List.mem_cons_self b rest))]
    exact ih (fun c hc => h c (List.mem_cons_of_mem b hc))

/-- Characters accepted by `parseOctet` are decimal digits. -/
theorem parseOctet_chars {l : List Nat} {v : Nat} (h : parseOctet l = some v) :
    ∀ b ∈ l, isDigit b = true := by
  rw [parseOctet] at h
  split at h
  · next hc => exact fun b hb => List.all_eq_true.1 hc.2.2.1 b hb
  · exact absurd h (by simp)

/-- Characters of a string accepted by `parseIpv4` are digits or dots. -/
theorem parseIpv4_chars {l : List Nat} {ip : IpAddr} (h : parseIpv4 l = some ip) :
    ∀ b ∈ l, isDigit b = true ∨ b = 46 := by
  intro b hb
  rcases @splitOnSep_mem 46 b l hb with h46 | ⟨g, hg, hbg⟩
  · exact Or.inr h46
  · left
    rw [parseIpv4] at h
    have hmem := List.mem_map_of_mem parseOctet hg
    split at h
    · next a c d e heq =>
      rw [heq] at hmem
      simp only [List.mem_cons, List.not_mem_nil, or_false] at hmem
      rcases hmem with h' | h' | h' | h' <;>
        exact parseOctet_chars h' b hbg
    · exact absurd h (by simp)

/-- Characters of a string accepted by `parseU16` are digits or a leading
plus sign. -/
theorem parseU16_chars {l : List Nat} {v : Nat} (h : parseU16 l = some v) :
    ∀ b ∈ l, isDigit b = true ∨ b = 43 := by
  rw [parseU16] at h
  intro b hb
  by_cases hh : l.headD 0 = 43
  · rw [if_pos hh] at h
    match l, hb, hh with
    | c :: rest, hb, hh =>
      simp only [List.headD_cons] at hh
      subst hh
      simp only [List.mem_cons] at hb
      rcases hb with rfl | hb
      · exact Or.inr rfl
      · left
        simp only [List.drop_succ_cons, List.drop_zero] at h
        split at h
        · next hc => exact List.all_eq_true.1 hc.2 b hb
        · exact absurd h (by simp)
  · rw [if_neg hh] at h
    left
    split at h
    · next hc => exact List.all_eq_true.1 hc.2 b hb
    · exact absurd h (by simp)

/-! ## Inversion lemmas for the decoders -/

/-- One non-stopping step of the CRLF scan (fuel given as an explicit
successor). -/
theorem readToCrlfAux_step (f g : Nat) (hf : f = g + 1)
    (acc s : List Nat) (b : Nat)
    (h : ¬ (2 ≤ acc.length ∧ acc.getLast? = some 13 ∧ b = 10)) :
    readToCrlfAux f acc (b :: s) = readToCrlfAux g (acc ++ [b]) s := by
  subst hf
  rw [readToCrlfAux, if_neg h]

/-- Successful `read_proxy_protocol_v1` runs decompose into a successful
CRLF scan, the `'P'` check, and a successful field parse. -/
theorem read_proxy_protocol_v1_ok_inv {s : List Nat} {h : ProxyProtocolHeader}
    {rest : List Nat} (hok : read_proxy_protocol_v1 s = .ok (h, rest)) :
    ∃ pre, readToCrlf s = .ok (pre, rest) ∧ pre.headD 0 = 80 ∧
      parse_proxy_protocol_v1_after_first_byte (pre.drop 1) = .ok h := by
  rw [read_proxy_protocol_v1, DecodeResult.bind_eq_ok] at hok
  obtain ⟨pr, hcrlf, hrest⟩ := hok
  by_cases hp : pr.1.headD 0 ≠ 80
  · rw [if_pos hp] at hrest
    exact absurd hrest (by simp)
  · rw [if_neg hp, DecodeResult.bind_eq_ok] at hrest
    obtain ⟨h', hparse, heq⟩ := hrest
    simp only [DecodeResult.ok.injEq, Prod.mk.injEq] at heq
    obtain ⟨rfl, rfl⟩ := heq
    exact ⟨pr.1, by rw [← hcrlf], not_ne_iff.1 hp, hparse⟩

/-- The first segment of a split is either the whole list or the part up
to the first separator. -/
theorem splitOnSep_first {sep : Nat} :
    ∀ {l f0 : List Nat} {gs : List (List Nat)},
    splitOnSep sep l = f0 :: gs → l = f0 ∨ ∃ t, l = f0 ++ sep :: t := by
  intro l
  induction l with
  | nil =>
    intro f0 gs h
    rw [splitOnSep] at h
    cases h
    exact Or.inl rfl
  | cons b rest ih =>
    intro f0 gs h
    rw [splitOnSep] at h
    cases hs : splitOnSep sep rest with
    | nil => exact absurd hs (splitOnSep_ne_nil sep rest)
    | cons g gs' =>
      rw [hs] at h
      dsimp only at h
      by_cases hb : b = sep
      · rw [if_pos hb] at h
        cases h
        exact Or.inr ⟨rest, by rw [hb]; rfl⟩
      · rw [if_neg hb] at h
        cases h
        rcases ih hs with rfl | ⟨t, rfl⟩
        · exact Or.inl rfl
        · exact Or.inr ⟨t, rfl⟩

/-- A successful v1 field parse forces the buffer to start with the
literal `ROXY`. -/
theorem parse_v1_ok_starts_roxy {buf : List Nat} {h : ProxyProtocolHeader}
    (hok : parse_proxy_protocol_v1_after_first_byte buf = .ok h) :
    ∃ t, buf = 82 :: 79 :: 88 :: 89 :: t := by
  rw [parse_proxy_protocol_v1_after_first_byte] at hok
  cases hs : splitOnSep 32 buf with
  | nil => exact absurd hs (splitOnSep_ne_nil 32 buf)
  | cons f0 gs =>
    rw [hs] at hok
    try dsimp only at hok
    by_cases hf : validUtf8 f0 ∧ f0 = strBytes "ROXY"
    · rcases splitOnSep_first hs with rfl | ⟨t, rfl⟩
      · exact ⟨[], by rw [hf.2]; rfl⟩
      · exact ⟨32 :: t, by rw [hf.2]; rfl⟩
    · rw [if_neg hf] at hok
      exact absurd hok (by simp)

/-- If a successful v1 scan-and-parse happened on `s`, the scan restarted
on `s.drop 1` (as `read_proxy_protocol_any` does after consuming `'P'`)
finds the same CRLF and yields the same buffer minus the leading byte. -/
theorem readToCrlf_drop_one {s pre rest : List Nat} {h : ProxyProtocolHeader}
    (hcrlf : readToCrlf s = .ok (pre, rest))
    (hparse : parse_proxy_protocol_v1_after_first_byte (pre.drop 1) = .ok h) :
    readToCrlf (s.drop 1) = .ok (pre.drop 1, rest) := by
  obtain ⟨t4, hpre4⟩ := parse_v1_ok_starts_roxy hparse
  obtain ⟨hs, hlen, _⟩ := readToCrlf_ok_decomp hcrlf
  match pre, hpre4 with
  | p0 :: pr, hpre4 =>
    simp only [List.drop_succ_cons, List.drop_zero] at hpre4
    subst hpre4
    subst hs
    simp only [List.cons_append] at hcrlf ⊢
    -- the stream is p0 :: 82 :: 79 :: (88 :: 89 :: t4 ++ 13 :: 10 :: rest)
    rw [readToCrlf] at hcrlf
    rw [readToCrlfAux_step 107 106 (by norm_num) [] _ p0 (by simp)] at hcrlf
    simp only [List.nil_append] at hcrlf
    rw [readToCrlfAux_step 106 105 (by norm_num) [p0] _ 82 (by simp)] at hcrlf
    simp only [List.cons_append, List.nil_append] at hcrlf
    rw [readToCrlfAux_step 105 104 (by norm_num) [p0, 82] _ 79 (by simp)] at hcrlf
    simp only [List.cons_append, List.nil_append] at hcrlf
    obtain ⟨pre', hpre', hrun⟩ :=
      readToCrlfAux_shift 104 p0 [82, 79] _ _ _ (by decide) hcrlf
    simp only [List.cons.injEq] at hpre'
    rw [List.drop_succ_cons, List.drop_zero]
    rw [readToCrlf]
    rw [readToCrlfAux_step 107 106 (by norm_num) [] _ 82 (by simp)]
    simp only [List.nil_append]
    rw [readToCrlfAux_step 106 105 (by norm_num) [82] _ 79 (by simp)]
    simp only [List.cons_append, List.nil_append]
    rw [show (104 : Nat) + 1 = 105 from rfl] at hrun
    rw [List.drop_succ_cons, List.drop_zero, hpre'.2]
    exact hrun

/-- The address-presence invariant: a socket address is present exactly
for the TCP4/TCP6 protocols. -/
def addrInvariant (h : ProxyProtocolHeader) : Prop :=
  (h.source_addr.isSome = true ↔ (h.proto = Proto.Tcp4 ∨ h.proto = Proto.Tcp6)) ∧
  (h.dest_addr.isSome = true ↔ (h.proto = Proto.Tcp4 ∨ h.proto = Proto.Tcp6))

theorem readExact_ok {n : Nat} {s : List Nat} {pr : List Nat × List Nat}
    (h : readExact n s = .ok pr) :
    pr.1 = s.take n ∧ pr.2 = s.drop n ∧ n ≤ s.length := by
  rw [readExact] at h
  split at h
  · next hn => cases h; exact ⟨rfl, rfl, hn⟩
  · exact absurd h (by simp)

/-- Master inversion for a successful `v2_after_header` run: the
signature matched, exactly the declared address-block length was consumed
from the stream, and the produced header satisfies the address-presence
invariant. -/
theorem v2_after_header_ok_inv {hb s : List Nat} {h : ProxyProtocolHeader}
    {rest : List Nat} (hok : v2_after_header hb s = .ok (h, rest)) :
    hb.take 12 = proxyV2Magic ∧
    rest = s.drop (be16 (hb.drop 14)) ∧ be16 (hb.drop 14) ≤ s.length ∧
    addrInvariant h := by
  rw [v2_after_header] at hok
  split at hok
  · exact absurd hok (by simp)
  · next hmagic =>
    try dsimp only at hok
    split at hok
    · exact absurd hok (by simp)
    · rw [DecodeResult.bind_eq_ok] at hok
      obtain ⟨command, hcmd, hok⟩ := hok
      try dsimp only at hok
      rw [DecodeResult.bind_eq_ok] at hok
      obtain ⟨af, haf, hok⟩ := hok
      try dsimp only at hok
      rw [DecodeResult.bind_eq_ok] at hok
      obtain ⟨transport, htr, hok⟩ := hok
      try dsimp only at hok
      split at hok
      · exact absurd hok (by simp)
      · rw [DecodeResult.bind_eq_ok] at hok
        obtain ⟨ar, har, hok⟩ := hok
        obtain ⟨har1, har2, har3⟩ := readExact_ok har
        try dsimp only at hok
        rw [DecodeResult.bind_eq_ok] at hok
        obtain ⟨res, hres, hok⟩ := hok
        try dsimp only at hok
        refine ⟨not_ne_iff.1 hmagic, ?_⟩
        cases res with
        | none =>
          dsimp only at hok
          simp only [DecodeResult.ok.injEq, Prod.mk.injEq] at hok
          obtain ⟨rfl, rfl⟩ := hok
          refine ⟨har2, har3, ?_⟩
          constructor <;> simp [ProxyProtocolHeader.new_unknown]
        | some pr =>
          dsimp only at hok
          split at hok
          · exact absurd hok (by simp)
          · simp only [DecodeResult.ok.injEq, Prod.mk.injEq] at hok
            obtain ⟨rfl, rfl⟩ := hok
            refine ⟨har2, har3, ?_⟩
            have hpr : pr.1 = Proto.Tcp4 ∨ pr.1 = Proto.Tcp6 := by
              cases af with
              | Inet =>
                rw [DecodeResult.bind_eq_ok] at hres
                obtain ⟨b1, _, hres⟩ := hres
                rw [DecodeResult.bind_eq_ok] at hres
                obtain ⟨b2, _, hres⟩ := hres
                rw [DecodeResult.bind_eq_ok] at hres
                obtain ⟨b3, _, hres⟩ := hres
                rw [DecodeResult.bind_eq_ok] at hres
                obtain ⟨b4, _, hres⟩ := hres
                simp only [DecodeResult.ok.injEq, Option.some.injEq] at hres
                rw [← hres]
                exact Or.inl rfl
              | Inet6 =>
                rw [DecodeResult.bind_eq_ok] at hres
                obtain ⟨b1, _, hres⟩ := hres
                rw [DecodeResult.bind_eq_ok] at hres
                obtain ⟨b2, _, hres⟩ := hres
                rw [DecodeResult.bind_eq_ok] at hres
                obtain ⟨b3, _, hres⟩ := hres
                rw [DecodeResult.bind_eq_ok] at hres
                obtain ⟨b4, _, hres⟩ := hres
                simp only [DecodeResult.ok.injEq, Option.some.injEq] at hres
                rw [← hres]
                exact Or.inr rfl
              | Unix => exact absurd hres (by simp)
              | Unspec => exact absurd hres (by simp)
            constructor <;>
              simpa [ProxyProtocolHeader.new_with_command] using hpr

/-- Inversion for a successful `read_proxy_protocol_v2` run. -/
theorem read_proxy_protocol_v2_ok_inv {s : List Nat} {h : ProxyProtocolHeader}
    {rest : List Nat} (hok : read_proxy_protocol_v2 s = .ok (h, rest)) :
    16 ≤ s.length ∧ v2_after_header (s.take 16) (s.drop 16) = .ok (h, rest) := by
  rw [read_proxy_protocol_v2, DecodeResult.bind_eq_ok] at hok
  obtain ⟨hr, hread, hok⟩ := hok
  obtain ⟨h1, h2, h3⟩ := readExact_ok hread
  split at hok
  · exact absurd hok (by simp)
  · refine ⟨h3, ?_⟩
    rw [read_proxy_protocol_v2_after_first_byte] at hok
    have hlen16 : hr.1.length = 16 := by
      rw [h1, List.length_take]; omega
    rw [if_neg (by omega), if_pos hlen16, h1, h2] at hok
    exact hok

/-- Every header produced by the v1 field parser satisfies the
address-presence invariant. -/
theorem parse_v1_ok_inv {buf : List Nat} {h : ProxyProtocolHeader}
    (hok : parse_proxy_protocol_v1_after_first_byte buf = .ok h) :
    addrInvariant h := by
  rw [parse_proxy_protocol_v1_after_first_byte] at hok
  cases hs : splitOnSep 32 buf with
  | nil => exact absurd hs (splitOnSep_ne_nil 32 buf)
  | cons f0 gs =>
    rw [hs] at hok
    try dsimp only at hok
    split at hok
    · rw [DecodeResult.bind_eq_ok] at hok
      obtain ⟨x, hx, hok⟩ := hok
      try dsimp only at hok
      rw [DecodeResult.bind_eq_ok] at hok
      obtain ⟨proto, hproto, hok⟩ := hok
      try dsimp only at hok
      by_cases hu : proto = Proto.Unknown
      · rw [if_pos hu] at hok
        simp only [DecodeResult.ok.injEq] at hok
        subst hok
        constructor <;> simp [ProxyProtocolHeader.new_unknown]
      · rw [if_neg hu] at hok
        rw [DecodeResult.bind_eq_ok] at hok
        obtain ⟨x2, _, hok⟩ := hok
        try dsimp only at hok
        rw [DecodeResult.bind_eq_ok] at hok
        obtain ⟨sa, _, hok⟩ := hok
        try dsimp only at hok
        rw [DecodeResult.bind_eq_ok] at hok
        obtain ⟨x3, _, hok⟩ := hok
        try dsimp only at hok
        rw [DecodeResult.bind_eq_ok] at hok
        obtain ⟨da, _, hok⟩ := hok
        try dsimp only at hok
        rw [DecodeResult.bind_eq_ok] at hok
        obtain ⟨x4, _, hok⟩ := hok
        try dsimp only at hok
        rw [DecodeResult.bind_eq_ok] at hok
        obtain ⟨sp, _, hok⟩ := hok
        try dsimp only at hok
        rw [DecodeResult.bind_eq_ok] at hok
        obtain ⟨x5, _, hok⟩ := hok
        try dsimp only at hok
        rw [DecodeResult.bind_eq_ok] at hok
        obtain ⟨dp, _, hok⟩ := hok
        try dsimp only at hok
        simp only [DecodeResult.ok.injEq] at hok
        subst hok
        have hproto4 : proto = Proto.Tcp4 ∨ proto = Proto.Tcp6 := by
          split at hproto
          · simp only [DecodeResult.ok.injEq] at hproto
            exact Or.inl hproto.symm
          · split at hproto
            · simp only [DecodeResult.ok.injEq] at hproto
              exact Or.inr hproto.symm
            · split at hproto
              · simp only [DecodeResult.ok.injEq] at hproto
                exact absurd hproto.symm hu
              · exact absurd hproto (by simp)
        constructor <;> simpa [ProxyProtocolHeader.new] using hproto4
    · exact absurd hok (by simp)

/-- C3: for every well-formed v1 input (one on which `read_proxy_protocol_v1`
succeeds), `read_proxy_protocol_any` returns the same header and leaves the
same unconsumed stream; likewise for every well-formed v2 input with
`read_proxy_protocol_v2`. -/
theorem c3_any_agrees_with_direct :
    (∀ (s : List Nat) (h : ProxyProtocolHeader) (rest : List Nat),
      read_proxy_protocol_v1 s = .ok (h, rest) →
      read_proxy_protocol_any s = .ok (h, rest)) ∧
    (∀ (s : List Nat) (h : ProxyProtocolHeader) (rest : List Nat),
      read_proxy_protocol_v2 s = .ok (h, rest) →
      read_proxy_protocol_any s = .ok (h, rest)) := by
  constructor
  · intro s h rest hv1
    obtain ⟨pre, hcrlf, hhead, hparse⟩ := read_proxy_protocol_v1_ok_inv hv1
    have hdrop := readToCrlf_drop_one hcrlf hparse
    obtain ⟨hs, hlen, _⟩ := readToCrlf_ok_decomp hcrlf
    match pre, hlen, hhead, hparse, hdrop with
    | p0 :: pr, _, hhead, hparse, hdrop =>
      simp only [List.headD_cons] at hhead
      subst hhead
      subst hs
      simp only [List.cons_append, List.drop_succ_cons, List.drop_zero] at hdrop ⊢
      simp only [List.drop_succ_cons, List.drop_zero] at hparse
      rw [read_proxy_protocol_any]
      have hre : readExact 1 (80 :: (pr ++ 13 :: 10 :: rest)) =
          .ok ([80], pr ++ 13 :: 10 :: rest) := by
        rw [readExact, if_pos (by simp)]
        rfl
      rw [hre]
      dsimp only [DecodeResult.bind]
      rw [if_neg (by simp), if_pos (by simp)]
      rw [hdrop]
      dsimp only [DecodeResult.bind]
      rw [hparse]
  · intro s h rest hv2
    obtain ⟨hlen, hv2h⟩ := read_proxy_protocol_v2_ok_inv hv2
    obtain ⟨hmagic, _, _, _⟩ := v2_after_header_ok_inv hv2h
    have htake12 : s.take 12 = proxyV2Magic := by
      have h1 : (s.take 16).take 12 = s.take 12 := by
        rw [List.take_take]
        norm_num
      rw [← h1, hmagic]
    match s, hlen with
    | s0 :: s', hlen2 =>
      have hs0 : s0 = 13 := by
        rw [show (12 : Nat) = 11 + 1 from rfl, List.take_succ_cons,
          proxyV2Magic] at htake12
        injection htake12 with hh _
      subst hs0
      rw [read_proxy_protocol_any]
      have hre : readExact 1 (13 :: s') = .ok ([13], s') := by
        rw [readExact, if_pos (by simp)]
        rfl
      rw [hre]
      dsimp only [DecodeResult.bind]
      rw [if_pos (by simp)]
      rw [read_proxy_protocol_v2_after_first_byte, if_pos (by decide)]
      have hre15 : readExact 15 s' = .ok (s'.take 15, s'.drop 15) := by
        rw [readExact, if_pos (by simp at hlen2 ⊢; omega)]
      rw [show (16 : Nat) - List.length [13] = 15 from rfl, hre15]
      dsimp only [DecodeResult.bind]
      rw [show (16 : Nat) = 15 + 1 from rfl, List.take_succ_cons,
        List.drop_succ_cons] at hv2h
      simpa using hv2h

/-- Every successful `read_proxy_protocol_any` run also satisfies the
address-presence invariant. -/
theorem read_proxy_protocol_any_ok_inv {s : List Nat} {h : ProxyProtocolHeader}
    {rest : List Nat} (hok : read_proxy_protocol_any s = .ok (h, rest)) :
    addrInvariant h := by
  rw [read_proxy_protocol_any, DecodeResult.bind_eq_ok] at hok
  obtain ⟨fr, hfr, hok⟩ := hok
  obtain ⟨hfr1, hfr2, hfr3⟩ := readExact_ok hfr
  split at hok
  · have hflen : fr.1.length = 1 := by
      rw [hfr1, List.length_take]; omega
    rw [read_proxy_protocol_v2_after_first_byte, hflen, if_pos (by decide)] at hok
    rw [DecodeResult.bind_eq_ok] at hok
    obtain ⟨tr, _, hok⟩ := hok
    exact (v2_after_header_ok_inv hok).2.2.2
  · split at hok
    · rw [DecodeResult.bind_eq_ok] at hok
      obtain ⟨pr2, _, hok⟩ := hok
      rw [DecodeResult.bind_eq_ok] at hok
      obtain ⟨h', hparse, heq⟩ := hok
      simp only [DecodeResult.ok.injEq, Prod.mk.injEq] at heq
      obtain ⟨rfl, rfl⟩ := heq
      exact parse_v1_ok_inv hparse
    · exact absurd hok (by simp)

/-- C5: every header returned by any of the three decoders carries a
source address exactly when its protocol is TCP4 or TCP6, and likewise a
destination address, so Unknown/Unix/unspecified headers carry `none` for
both. -/
theorem c5_address_presence_iff_tcp :
    ∀ (s : List Nat) (h : ProxyProtocolHeader) (rest : List Nat),
    (read_proxy_protocol_v1 s = .ok (h, rest) ∨
     read_proxy_protocol_v2 s = .ok (h, rest) ∨
     read_proxy_protocol_any s = .ok (h, rest)) →
    (h.source_addr.isSome = true ↔ (h.proto = Proto.Tcp4 ∨ h.proto = Proto.Tcp6)) ∧
    (h.dest_addr.isSome = true ↔ (h.proto = Proto.Tcp4 ∨ h.proto = Proto.Tcp6)) := by
  intro s h rest hok
  rcases hok with hok | hok | hok
  · obtain ⟨pre, _, _, hparse⟩ := read_proxy_protocol_v1_ok_inv hok
    exact parse_v1_ok_inv hparse
  · obtain ⟨_, hv2h⟩ := read_proxy_protocol_v2_ok_inv hok
    exact (v2_after_header_ok_inv hv2h).2.2.2
  · exact read_proxy_protocol_any_ok_inv hok

/-- C7: decoding consumes exactly the header bytes.  On success,
`read_proxy_protocol_v2` leaves exactly the input minus 16 bytes plus the
declared big-endian address-block length (bytes 14-15), and
`read_proxy_protocol_v1` leaves exactly the input minus the prefix through
the terminating CR LF (which lies within the 107-byte bound); every later
byte stays in the unconsumed stream. -/
theorem c7_consumes_exactly_header :
    (∀ (s : List Nat) (h : ProxyProtocolHeader) (rest : List Nat),
      read_proxy_protocol_v2 s = .ok (h, rest) →
      rest = s.drop (16 + (256 * s.getD 14 0 + s.getD 15 0))) ∧
    (∀ (s : List Nat) (h : ProxyProtocolHeader) (rest : List Nat),
      read_proxy_protocol_v1 s = .ok (h, rest) →
      ∃ n, n + 2 ≤ 107 ∧ s.getD n 0 = 13 ∧ s.getD (n + 1) 0 = 10 ∧
        rest = s.drop (n + 2)) := by
  constructor
  · intro s h rest hok
    obtain ⟨hlen, hv2h⟩ := read_proxy_protocol_v2_ok_inv hok
    obtain ⟨_, hrest, _, _⟩ := v2_after_header_ok_inv hv2h
    have hbe : be16 ((s.take 16).drop 14) = 256 * s.getD 14 0 + s.getD 15 0 := by
      rw [be16]
      congr 1
      · congr 1
        rw [List.getD_eq_getElem?_getD, List.getD_eq_getElem?_getD,
          List.getElem?_drop, List.getElem?_take]
        norm_num
      · rw [List.getD_eq_getElem?_getD, List.getD_eq_getElem?_getD,
          List.getElem?_drop, List.getElem?_take]
        norm_num
    rw [hrest, hbe, List.drop_drop]
  · intro s h rest hok
    obtain ⟨pre, hcrlf, _, _⟩ := read_proxy_protocol_v1_ok_inv hok
    obtain ⟨hs, hlen1, hlen105⟩ := readToCrlf_ok_decomp hcrlf
    refine ⟨pre.length, by omega, ?_, ?_, ?_⟩
    · subst hs
      rw [List.getD_eq_getElem?_getD, List.getElem?_append_right (by omega)]
      simp
    · subst hs
      rw [List.getD_eq_getElem?_getD, List.getElem?_append_right (by omega)]
      simp
    · subst hs
      rw [← List.drop_drop, List.drop_left]
      rfl

/-- C1 (code bug): on a well-formed v2 Inet6 header whose source address
bytes are the big-endian groups 1..8 (and destination groups 9..16), the
decoder returns group 5 twice in place of groups 5 and 6 — the sixth
group is NOT read from bytes 10..12 as the big-endian layout demands,
because `slice_to_ipv6addr` reads the slice `[8..12]` for both groups. -/
theorem c1_v2_ipv6_sixth_group_duplicated :
    read_proxy_protocol_v2 (proxyV2Magic ++ [0x21, 0x21, 0x00, 0x24] ++
        [0, 1, 0, 2, 0, 3, 0, 4, 0, 5, 0, 6, 0, 7, 0, 8] ++
        [0, 9, 0, 10, 0, 11, 0, 12, 0, 13, 0, 14, 0, 15, 0, 16] ++
        [0x22, 0xb8, 0x27, 0x0f]) =
      .ok (ProxyProtocolHeader.new_with_command 2 Proto.Tcp6 Command.Proxy
        ⟨.v6 1 2 3 4 5 5 7 8, 8888⟩ ⟨.v6 9 10 11 12 13 13 15 16, 9999⟩, []) ∧
    slice_to_ipv6addr [0, 1, 0, 2, 0, 3, 0, 4, 0, 5, 0, 6, 0, 7, 0, 8] =
      .v6 1 2 3 4 5 5 7 8 := by
  constructor
  · decide
  · decide

/-- C2 (code bug): a syntactically valid 16-byte v2 leading header with
family Inet, transport Stream and declared address-block length 0 drives
the decoder into an out-of-range slice index — modelled as `panicked` —
instead of a typed error. -/
theorem c2_short_addr_block_panics :
    read_proxy_protocol_v2
      [13, 10, 13, 10, 0, 13, 10, 81, 85, 73, 84, 10, 0x21, 0x11, 0, 0] =
      .panicked ∧
    read_proxy_protocol_any
      ([13, 10, 13, 10, 0, 13, 10, 81, 85, 73, 84, 10, 0x21, 0x11, 0, 0] ++ [0])
      = .panicked := by
  constructor
  · decide
  · decide

/-- C6 (counterexample): `read_proxy_protocol_v1` on the input
`"XX\r\n"` — a CRLF-terminated buffer whose first byte is not `'P'` —
fails with `MissingLiteral`, not with `MissingFirstByte` as the claim
states. -/
theorem c6_counterexample_first_byte :
    read_proxy_protocol_v1 [88, 88, 13, 10] = .err .MissingLiteral ∧
    read_proxy_protocol_v1 [88, 88, 13, 10] ≠ .err .MissingFirstByte := by
  constructor
  · decide
  · decide

/-- C6 (amended): when the CRLF scan succeeds but the very first input
byte is not `'P'` (0x50), `read_proxy_protocol_v1` fails with
`MissingLiteral` — the same error as a mismatched `PROXY ` literal —
while `MissingFirstByte` is produced by `read_proxy_protocol_any` when
the first byte is neither 0x0D nor `'P'`. -/
theorem c6_amended_first_byte_error :
    (∀ (s pre rest : List Nat), readToCrlf s = .ok (pre, rest) →
      s.headD 0 ≠ 80 → read_proxy_protocol_v1 s = .err .MissingLiteral) ∧
    (∀ (b : Nat) (s' : List Nat), b ≠ 13 → b ≠ 80 →
      read_proxy_protocol_any (b :: s') = .err .MissingFirstByte) := by
  constructor
  · intro s pre rest hcrlf hhead
    obtain ⟨hs, hlen, _⟩ := readToCrlf_ok_decomp hcrlf
    rw [read_proxy_protocol_v1, hcrlf]
    dsimp only [DecodeResult.bind]
    rw [if_pos ?_]
    match pre, hlen, hhead, hs with
    | p0 :: pr, _, hhead, hs =>
      subst hs
      simpa using hhead
  · intro b s' hb13 hb80
    rw [read_proxy_protocol_any]
    have hre : readExact 1 (b :: s') = .ok ([b], s') := by
      rw [readExact, if_pos (by simp)]
      rfl
    rw [hre]
    dsimp only [DecodeResult.bind]
    rw [if_neg (by simpa using hb13), if_neg (by simpa using hb80)]

set_option maxRecDepth 8000 in
/-- C9: there is a syntactically valid 108-byte v1 header (here using a
zero-padded source-port field) on which `read_proxy_protocol_v1` fails
with `MissingCrlf` — its scan covers only the first 107 bytes — while
`read_proxy_protocol_any`, which consumes the leading `'P'` before
scanning the remaining 107 bytes, succeeds. -/
theorem c9_decode_any_accepts_108_byte_header :
    (strBytes "PROXY TCP4 1.2.3.4 5.6.7.8 " ++ List.replicate 70 48 ++
      strBytes "65535 443" ++ [13, 10]).length = 108 ∧
    read_proxy_protocol_v1 (strBytes "PROXY TCP4 1.2.3.4 5.6.7.8 " ++
      List.replicate 70 48 ++ strBytes "65535 443" ++ [13, 10]) =
      .err .MissingCrlf ∧
    read_proxy_protocol_any (strBytes "PROXY TCP4 1.2.3.4 5.6.7.8 " ++
      List.replicate 70 48 ++ strBytes "65535 443" ++ [13, 10]) =
      .ok (ProxyProtocolHeader.new 1 Proto.Tcp4
        ⟨.v4 1 2 3 4, 65535⟩ ⟨.v4 5 6 7 8, 443⟩, []) := by
  refine ⟨by decide, by decide, by decide⟩

/-- C10: the CRLF scan only accepts a terminator whose LF lies at buffer
index 2 or greater (the returned buffer, which ends just before the CR,
is never empty), and on the exact two-byte input `"\r\n"` the decoder
fails with the I/O error from reading past the end of the input, not with
`MissingCrlf`. -/
theorem c10_leading_crlf_not_terminator :
    (∀ (s pre rest : List Nat), readToCrlf s = .ok (pre, rest) →
      1 ≤ pre.length) ∧
    read_proxy_protocol_v1 [13, 10] = .err .IoError := by
  constructor
  · intro s pre rest h
    exact (readToCrlf_ok_decomp h).2.1
  · decide

/-- C8: for every successfully constructed `ProxyStream`, the cached
address is exactly the decoded header's source address, and the
peer-address query returns the cached address when one is present and
falls back to the wrapped connection's native answer exactly when the
cache is `none`. -/
theorem c8_peer_addr_cached_or_native :
    ∀ (bytes : List Nat) (native : Except Unit SocketAddr)
      (v : ProxyProtocolVersion) (ps : ProxyStream),
    ProxyStream.from_stream bytes native v = .ok ps →
    (∃ h rest, readHeaderFor v bytes = .ok (h, rest) ∧
      ps.peer_addr = h.source_addr) ∧
    ((∃ a, ps.peer_addr = some a ∧ ps.peerAddr = .ok a) ∨
     (ps.peer_addr = none ∧ ps.peerAddr = native)) := by
  intro bytes native v ps hok
  rw [ProxyStream.from_stream, DecodeResult.bind_eq_ok] at hok
  obtain ⟨hr, hread, heq⟩ := hok
  simp only [DecodeResult.ok.injEq] at heq
  subst heq
  refine ⟨⟨hr.1, hr.2, hread, rfl⟩, ?_⟩
  cases hsrc : hr.1.source_addr with
  | some a =>
    left
    exact ⟨a, by simp [hsrc], by simp [ProxyStream.peerAddr, hsrc]⟩
  | none =>
    right
    exact ⟨by simp [hsrc], by simp [ProxyStream.peerAddr, hsrc]⟩

/-- Bytes occurring in IP-address or port fields (digits, dot, plus) are
neither CR nor space and are ASCII. -/
theorem fieldChar_facts {b : Nat} (h : isDigit b = true ∨ b = 46 ∨ b = 43) :
    b ≠ 13 ∧ b ≠ 32 ∧ b ≤ 127 := by
  rcases h with hd | rfl | rfl
  · rw [isDigit, Bool.and_eq_true, decide_eq_true_eq, decide_eq_true_eq] at hd
    omega
  · omega
  · omega

/-- C4: every input of the exact form
`PROXY TCP4 <ip4> <ip4> <port> <port>\r\n` (length at most 107) whose
address fields parse as IPv4 addresses and whose port fields parse as
16-bit ports decodes to version 1, protocol TCP4, command Proxy, with the
parsed addresses and ports reproduced exactly, consuming the entire
input. -/
theorem c4_v1_tcp4_wellformed_roundtrip :
    ∀ (a1 a2 p1 p2 : List Nat) (ip1 ip2 : IpAddr) (q1 q2 : Nat),
    parseIpv4 a1 = some ip1 → parseIpv4 a2 = some ip2 →
    parseU16 p1 = some q1 → parseU16 p2 = some q2 →
    (strBytes "PROXY TCP4 " ++ a1 ++ 32 :: a2 ++ 32 :: p1 ++ 32 :: p2 ++
      [13, 10]).length ≤ 107 →
    read_proxy_protocol_v1 (strBytes "PROXY TCP4 " ++ a1 ++ 32 :: a2 ++
      32 :: p1 ++ 32 :: p2 ++ [13, 10]) =
      .ok (ProxyProtocolHeader.new 1 Proto.Tcp4 ⟨ip1, q1⟩ ⟨ip2, q2⟩, []) := by
  intro a1 a2 p1 p2 ip1 ip2 q1 q2 hip1 hip2 hq1 hq2 hlen
  have hA : strBytes "PROXY TCP4 " = [80, 82, 79, 88, 89, 32, 84, 67, 80, 52, 32] := by
    decide
  have ha1c : ∀ b ∈ a1, isDigit b = true ∨ b = 46 := parseIpv4_chars hip1
  have ha2c : ∀ b ∈ a2, isDigit b = true ∨ b = 46 := parseIpv4_chars hip2
  have hp1c : ∀ b ∈ p1, isDigit b = true ∨ b = 43 := parseU16_chars hq1
  have hp2c : ∀ b ∈ p2, isDigit b = true ∨ b = 43 := parseU16_chars hq2
  have ha1f : ∀ b ∈ a1, b ≠ 13 ∧ b ≠ 32 ∧ b ≤ 127 := fun b hb =>
    fieldChar_facts (Or.imp_right Or.inl (ha1c b hb))
  have ha2f : ∀ b ∈ a2, b ≠ 13 ∧ b ≠ 32 ∧ b ≤ 127 := fun b hb =>
    fieldChar_facts (Or.imp_right Or.inl (ha2c b hb))
  have hp1f : ∀ b ∈ p1, b ≠ 13 ∧ b ≠ 32 ∧ b ≤ 127 := fun b hb =>
    fieldChar_facts (Or.imp_right Or.inr (hp1c b hb))
  have hp2f : ∀ b ∈ p2, b ≠ 13 ∧ b ≠ 32 ∧ b ≤ 127 := fun b hb =>
    fieldChar_facts (Or.imp_right Or.inr (hp2c b hb))
  -- the CRLF scan consumes exactly the full line
  have hbody13 : ∀ b ∈ strBytes "PROXY TCP4 " ++ a1 ++ 32 :: a2 ++ 32 :: p1 ++
      32 :: p2, b ≠ 13 := by
    simp only [List.forall_mem_append, List.forall_mem_cons]
    exact ⟨⟨⟨⟨by decide, fun b hb => (ha1f b hb).1⟩, by omega,
      fun b hb => (ha2f b hb).1⟩, by omega, fun b hb => (hp1f b hb).1⟩,
      by omega, fun b hb => (hp2f b hb).1⟩
  have hinput : strBytes "PROXY TCP4 " ++ a1 ++ 32 :: a2 ++ 32 :: p1 ++
      32 :: p2 ++ [13, 10] =
      (strBytes "PROXY TCP4 " ++ a1 ++ 32 :: a2 ++ 32 :: p1 ++ 32 :: p2) ++
      13 :: 10 :: ([] : List Nat) := by
    simp
  have hlenbody : (strBytes "PROXY TCP4 " ++ a1 ++ 32 :: a2 ++ 32 :: p1 ++
      32 :: p2).length + 2 ≤ 107 := by
    rw [hinput] at hlen
    simp only [List.length_append, List.length_cons, List.length_nil] at hlen ⊢
    omega
  have hcrlf : readToCrlf (strBytes "PROXY TCP4 " ++ a1 ++ 32 :: a2 ++
      32 :: p1 ++ 32 :: p2 ++ [13, 10]) =
      .ok (strBytes "PROXY TCP4 " ++ a1 ++ 32 :: a2 ++ 32 :: p1 ++ 32 :: p2,
        []) := by
    rw [hinput, readToCrlf]
    have := readToCrlfAux_complete
      (strBytes "PROXY TCP4 " ++ a1 ++ 32 :: a2 ++ 32 :: p1 ++ 32 :: p2)
      107 [] [] hbody13 (by simp) (by rw [hA]; simp) hlenbody
    simpa using this
  have hdrop1 : (strBytes "PROXY TCP4 " ++ a1 ++ 32 :: a2 ++ 32 :: p1 ++
      32 :: p2).drop 1 =
      [82, 79, 88, 89] ++ 32 :: ([84, 67, 80, 52] ++ 32 :: (a1 ++ 32 ::
        (a2 ++ 32 :: (p1 ++ 32 :: p2)))) := by
    rw [hA]
    simp
  have hsplit : splitOnSep 32 ((strBytes "PROXY TCP4 " ++ a1 ++ 32 :: a2 ++
      32 :: p1 ++ 32 :: p2).drop 1) =
      [[82, 79, 88, 89], [84, 67, 80, 52], a1, a2, p1, p2] := by
    rw [hdrop1]
    rw [splitOnSep_append _ (by decide)]
    rw [splitOnSep_append _ (by decide)]
    rw [splitOnSep_append _ (fun c hc => (ha1f c hc).2.1)]
    rw [splitOnSep_append _ (fun c hc => (ha2f c hc).2.1)]
    rw [splitOnSep_append _ (fun c hc => (hp1f c hc).2.1)]
    rw [splitOnSep_no_sep (fun c hc => (hp2f c hc).2.1)]
  have hipa1 : ipAddrParse a1 = some ip1 := by rw [ipAddrParse, hip1]
  have hipa2 : ipAddrParse a2 = some ip2 := by rw [ipAddrParse, hip2]
  have hva1 : validUtf8 a1 = true := validUtf8_ascii (fun b hb => (ha1f b hb).2.2)
  have hva2 : validUtf8 a2 = true := validUtf8_ascii (fun b hb => (ha2f b hb).2.2)
  have hvp1 : validUtf8 p1 = true := validUtf8_ascii (fun b hb => (hp1f b hb).2.2)
  have hvp2 : validUtf8 p2 = true := validUtf8_ascii (fun b hb => (hp2f b hb).2.2)
  rw [read_proxy_protocol_v1, hcrlf]
  dsimp only [DecodeResult.bind]
  rw [if_neg (by rw [hA]; simp)]
  rw [parse_proxy_protocol_v1_after_first_byte, hsplit]
  dsimp only
  rw [if_pos (by decide)]
  rw [nextField, if_pos (by decide)]
  dsimp only [DecodeResult.bind]
  rw [if_pos (by decide)]
  dsimp only [DecodeResult.bind]
  rw [if_neg (by decide)]
  rw [nextField, if_pos hva1]
  dsimp only [DecodeResult.bind]
  rw [hipa1]
  dsimp only [DecodeResult.bind]
  rw [nextField, if_pos hva2]
  dsimp only [DecodeResult.bind]
  rw [hipa2]
  dsimp only [DecodeResult.bind]
  rw [nextField, if_pos hvp1]
  dsimp only [DecodeResult.bind]
  rw [hq1]
  dsimp only [DecodeResult.bind]
  rw [nextField, if_pos hvp2]
  dsimp only [DecodeResult.bind]
  rw [hq2]

/-- Witness for C3 at the repository's own v1 and v2 test vectors. -/
theorem c3_witness :
    read_proxy_protocol_any (strBytes "PROXY UNKNOWN\r\n") =
      .ok (ProxyProtocolHeader.new_unknown 1, []) ∧
    read_proxy_protocol_any
      [13, 10, 13, 10, 0, 13, 10, 81, 85, 73, 84, 10, 0x21, 0x11, 0x00, 0x0c,
        0x0a, 0x0b, 0x0c, 0x0d, 0x7f, 0, 0, 1, 0x22, 0xb8, 0x27, 0x0f] =
      .ok (ProxyProtocolHeader.new_with_command 2 Proto.Tcp4 Command.Proxy
        ⟨.v4 10 11 12 13, 8888⟩ ⟨.v4 127 0 0 1, 9999⟩, []) :=
  ⟨c3_any_agrees_with_direct.1 _ _ _ (by decide),
   c3_any_agrees_with_direct.2 _ _ _ (by decide)⟩

/-- Witness for C4 at the repository's own v1 test vector. -/
theorem c4_witness :
    read_proxy_protocol_v1 (strBytes "PROXY TCP4 " ++ strBytes "192.168.0.1" ++
      32 :: strBytes "192.168.0.11" ++ 32 :: strBytes "56324" ++
      32 :: strBytes "443" ++ [13, 10]) =
      .ok (ProxyProtocolHeader.new 1 Proto.Tcp4
        ⟨.v4 192 168 0 1, 56324⟩ ⟨.v4 192 168 0 11, 443⟩, []) :=
  c4_v1_tcp4_wellformed_roundtrip (strBytes "192.168.0.1")
    (strBytes "192.168.0.11") (strBytes "56324") (strBytes "443")
    (.v4 192 168 0 1) (.v4 192 168 0 11) 56324 443
    (by decide) (by decide) (by decide) (by decide) (by decide)

/-- Witness for C5 at the `PROXY UNKNOWN` v1 input. -/
theorem c5_witness :
    ((ProxyProtocolHeader.new_unknown 1).source_addr.isSome = true ↔
      ((ProxyProtocolHeader.new_unknown 1).proto = Proto.Tcp4 ∨
       (ProxyProtocolHeader.new_unknown 1).proto = Proto.Tcp6)) ∧
    ((ProxyProtocolHeader.new_unknown 1).dest_addr.isSome = true ↔
      ((ProxyProtocolHeader.new_unknown 1).proto = Proto.Tcp4 ∨
       (ProxyProtocolHeader.new_unknown 1).proto = Proto.Tcp6)) :=
  c5_address_presence_iff_tcp (strBytes "PROXY UNKNOWN\r\n")
    (ProxyProtocolHeader.new_unknown 1) [] (Or.inl (by decide))

/-- Witness for the amended C6: `"AB\r\n"` gives `MissingLiteral` from
`read_proxy_protocol_v1`, a lone `'X'` gives `MissingFirstByte` from
`read_proxy_protocol_any`. -/
theorem c6_witness :
    read_proxy_protocol_v1 [65, 66, 13, 10] = .err .MissingLiteral ∧
    read_proxy_protocol_any [88] = .err .MissingFirstByte :=
  ⟨c6_amended_first_byte_error.1 [65, 66, 13, 10] [65, 66] []
      (by decide) (by decide),
   c6_amended_first_byte_error.2 88 [] (by decide) (by decide)⟩

/-- Witness for C7: a v2 TCP4 header followed by two application bytes
leaves exactly those two bytes, and a v1 header followed by one
application byte leaves exactly that byte behind a CRLF. -/
theorem c7_witness :
    ([99, 100] : List Nat) =
      ([13, 10, 13, 10, 0, 13, 10, 81, 85, 73, 84, 10, 0x21, 0x11, 0x00, 0x0c,
        0x0a, 0x0b, 0x0c, 0x0d, 0x7f, 0, 0, 1, 0x22, 0xb8, 0x27, 0x0f] ++
        [99, 100]).drop (16 + (256 *
          ([13, 10, 13, 10, 0, 13, 10, 81, 85, 73, 84, 10, 0x21, 0x11, 0x00,
            0x0c, 0x0a, 0x0b, 0x0c, 0x0d, 0x7f, 0, 0, 1, 0x22, 0xb8, 0x27,
            0x0f] ++ [99, 100]).getD 14 0 +
          ([13, 10, 13, 10, 0, 13, 10, 81, 85, 73, 84, 10, 0x21, 0x11, 0x00,
            0x0c, 0x0a, 0x0b, 0x0c, 0x0d, 0x7f, 0, 0, 1, 0x22, 0xb8, 0x27,
            0x0f] ++ [99, 100]).getD 15 0)) ∧
    (∃ n, n + 2 ≤ 107 ∧
      (strBytes "PROXY UNKNOWN\r\n" ++ [7]).getD n 0 = 13 ∧
      (strBytes "PROXY UNKNOWN\r\n" ++ [7]).getD (n + 1) 0 = 10 ∧
      ([7] : List Nat) = (strBytes "PROXY UNKNOWN\r\n" ++ [7]).drop (n + 2)) :=
  ⟨c7_consumes_exactly_header.1 _
      (ProxyProtocolHeader.new_with_command 2 Proto.Tcp4 Command.Proxy
        ⟨.v4 10 11 12 13, 8888⟩ ⟨.v4 127 0 0 1, 9999⟩) [99, 100] (by decide),
   c7_consumes_exactly_header.2 _ (ProxyProtocolHeader.new_unknown 1) [7]
      (by decide)⟩

/-- Witness for C8 at a decoded v1 TCP4 connection with two trailing
application bytes. -/
theorem c8_witness :
    (∃ h rest, readHeaderFor ProxyProtocolVersion.V1
        (strBytes "PROXY TCP4 127.0.0.1 127.0.0.2 2020 3030\r\n" ++ [65, 66]) =
        .ok (h, rest) ∧
      (⟨Except.error (), [65, 66], some ⟨IpAddr.v4 127 0 0 1, 2020⟩⟩ :
        ProxyStream).peer_addr = h.source_addr) ∧
    ((∃ a, (⟨Except.error (), [65, 66], some ⟨IpAddr.v4 127 0 0 1, 2020⟩⟩ :
        ProxyStream).peer_addr = some a ∧
      (⟨Except.error (), [65, 66], some ⟨IpAddr.v4 127 0 0 1, 2020⟩⟩ :
        ProxyStream).peerAddr = .ok a) ∨
     ((⟨Except.error (), [65, 66], some ⟨IpAddr.v4 127 0 0 1, 2020⟩⟩ :
        ProxyStream).peer_addr = none ∧
      (⟨Except.error (), [65, 66], some ⟨IpAddr.v4 127 0 0 1, 2020⟩⟩ :
        ProxyStream).peerAddr = Except.error ())) :=
  c8_peer_addr_cached_or_native
    (strBytes "PROXY TCP4 127.0.0.1 127.0.0.2 2020 3030\r\n" ++ [65, 66])
    (Except.error ()) ProxyProtocolVersion.V1
    ⟨Except.error (), [65, 66], some ⟨IpAddr.v4 127 0 0 1, 2020⟩⟩ (by rfl)

/-- Witness for C10's universal part at the input `"AB\r\n"`. -/
theorem c10_witness : 1 ≤ ([65, 66] : List Nat).length :=
  c10_leading_crlf_not_terminator.1 [65, 66, 13, 10] [65, 66] [] (by decide)
